import Mathlib

/-!
Verification of the Hotspot-Helsinki event aggregator.

This file gives a shallow embedding, in Lean 4, of the aggregation, caching,
scoring, deduplication, rate limiting and validation logic of the repository,
and proves (or refutes) the specified properties about it.

Modelling conventions:
- JS timestamps (milliseconds since the epoch) are `Int`.
- JS numbers that the code treats arithmetically but never with transcendental
  functions are `Rat`; the Haversine scoring path, which uses trigonometry,
  is embedded over `Real`.  `NaN` is modelled by `Option` at parse boundaries
  (`none` = not-a-number); JS truthiness of a number is `x ≠ 0`.
- JS strings are `String`; truthiness of a string is `s ≠ ""`.
- A JS `Map` is an insertion-ordered association list, which matches the
  iteration order guarantees that the deduplicator relies on.
- The ISO-hour truncation `toISOString().slice(0, 13)` is modelled as floor
  division of the epoch milliseconds by 3 600 000: two timestamps have the
  same `YYYY-MM-DDTHH` prefix exactly when they lie in the same UTC hour.
-/

namespace Hotspot

/-- The unified `HotspotEvent` record produced by every adapter
(`src/unnamed/part_014`, typedef at the top of the file). -/
structure Event where
  id : String
  source : String
  title : String
  description : String
  startTime : Int
  endTime : Option Int
  lat : Rat
  lng : Rat
  venueName : String
  city : String
  category : String
  priceType : String
  url : Option String
  imageUrl : Option String
  isLiveNow : Bool
  score : Rat
deriving DecidableEq

/-- JS `String.prototype.toLowerCase`, at the ASCII level. -/
def jsToLower (s : String) : String :=
  String.mk (s.data.map Char.toLower)

/-- JS `String.prototype.trim`: drop leading and trailing whitespace. -/
def jsTrim (s : String) : String :=
  String.mk (((s.data.dropWhile Char.isWhitespace).reverse.dropWhile Char.isWhitespace).reverse)

/-- A character matched by the JS regex class `[\w\s]` (word or whitespace). -/
def isWordOrSpace (c : Char) : Bool :=
  c.isAlphanum || c = '_' || c.isWhitespace

/-- The title normalisation of `dedupeEvents`:
`event.title.toLowerCase().trim().replace(/[^\w\s]/g, '')`. -/
def normalizeTitle (t : String) : String :=
  String.mk ((jsTrim (jsToLower t)).data.filter isWordOrSpace)

/-- The UTC hour index of a timestamp; models
`new Date(ms).toISOString().slice(0, 13)` up to the injective rendering of
the hour. -/
def hourIndex (t : Int) : Int :=
  Int.fdiv t 3600000

/-- The fuzzy deduplication key of `dedupeEvents`:
`normalizedTitle + "_" + venueName.toLowerCase() + "_" + startHour`. -/
def fuzzyKey (e : Event) : String :=
  normalizeTitle e.title ++ "_" ++ jsToLower e.venueName ++ "_" ++ toString (hourIndex e.startTime)

/-- JS truthiness of a nullable string field. -/
def truthyStr : Option String → Bool
  | some s => !(s == "")
  | none => false

/-- The completeness quality used by `dedupeEvents`:
`(url ? 10 : 0) + (imageUrl ? 20 : 0) + (description ? 5 : 0) + (endTime ? 5 : 0)`. -/
def quality (e : Event) : Nat :=
  (if truthyStr e.url then 10 else 0) + (if truthyStr e.imageUrl then 20 else 0) +
    (if !(e.description == "") then 5 else 0) + (if e.endTime.isSome then 5 else 0)

/-- Lookup in an insertion-ordered association list (JS `Map.get`). -/
def alookup {α : Type} (k : String) : List (String × α) → Option α
  | [] => none
  | (k', v) :: rest => if k' = k then some v else alookup k rest

/-- JS `Map.set`: replace the value in place when the key exists, else append. -/
def mapSet {α : Type} (k : String) (v : α) : List (String × α) → List (String × α)
  | [] => [(k, v)]
  | (k', v') :: rest => if k' = k then (k', v) :: rest else (k', v') :: mapSet k v rest

/-- One iteration of the `for (const event of events)` loop of `dedupeEvents`:
insert a fresh key, or keep the stored event unless the new one has strictly
higher quality. -/
def dedupeStep (seen : List (String × Event)) (e : Event) : List (String × Event) :=
  match alookup (fuzzyKey e) seen with
  | none => mapSet (fuzzyKey e) e seen
  | some existing => if quality existing < quality e then mapSet (fuzzyKey e) e seen else seen

/-- The deduplicator of `src/unnamed/part_014` (lines 132-164): fold the events
into the insertion-ordered map, then return `Array.from(seen.values())`. -/
def dedupeEvents (events : List Event) : List Event :=
  (events.foldl dedupeStep []).map Prod.snd

/-- The running best of a key class: the event the map would hold after the
whole class has been folded in, starting from its first member. -/
def pickBest (v : Event) (l : List Event) : Event :=
  l.foldl (fun b e => if quality b < quality e then e else b) v

/-- `isLiveNow` of the aggregator (`src/unnamed/part_014`, lines 53-65): inside
`[start, end]`, or `[start, start + 2h]` when `endTime` is absent.  The
function reads `Date.now()`; the model passes the instant explicitly. -/
def isLiveNow (e : Event) (now : Int) : Bool :=
  match e.endTime with
  | some en => decide (e.startTime ≤ now) && decide (now ≤ en)
  | none => decide (e.startTime ≤ now) && decide (now ≤ e.startTime + 2 * 60 * 60 * 1000)

/-- The client-side live check (`src/unnamed/part_004`, lines 30-47): a 6-hour
fallback duration and a 12-hour span ceiling.  `none` models a missing or
unparsable timestamp (`NaN`). -/
def isLiveNowClient (start endT : Option Int) (now : Int) : Bool :=
  match start with
  | none => false
  | some s =>
      let en := endT.getD (s + 6 * 60 * 60 * 1000)
      if s > now || now > en then false
      else if 12 * (1000 * 60 * 60) < en - s then false
      else true

/-- The live classification exactly as claim C3 states it: inside the window
(with the aggregator's documented 2-hour default duration) and with the
computed span within the 12-hour ceiling. -/
def liveClaimC3 (e : Event) (now : Int) : Bool :=
  let en := e.endTime.getD (e.startTime + 2 * 60 * 60 * 1000)
  decide (e.startTime ≤ now) && decide (now ≤ en) &&
    decide (en - e.startTime ≤ 12 * 60 * 60 * 1000)

/-- JS `Math.atan2`. -/
noncomputable def atan2 (y x : Real) : Real :=
  if 0 < x then Real.arctan (y / x)
  else if x < 0 ∧ 0 ≤ y then Real.arctan (y / x) + Real.pi
  else if x < 0 ∧ y < 0 then Real.arctan (y / x) - Real.pi
  else if 0 < y then Real.pi / 2
  else if y < 0 then -(Real.pi / 2)
  else 0

/-- The Haversine distance of `src/unnamed/part_014` (lines 70-80), in km. -/
noncomputable def calculateDistance (lat1 lng1 lat2 lng2 : Real) : Real :=
  let R : Real := 6371
  let dLat := (lat2 - lat1) * Real.pi / 180
  let dLng := (lng2 - lng1) * Real.pi / 180
  let a := Real.sin (dLat / 2) * Real.sin (dLat / 2) +
    Real.cos (lat1 * Real.pi / 180) * Real.cos (lat2 * Real.pi / 180) *
      Real.sin (dLng / 2) * Real.sin (dLng / 2)
  let c := 2 * atan2 (Real.sqrt a) (Real.sqrt (1 - a))
  R * c

open Classical in
/-- The scorer of `src/unnamed/part_014` (lines 85-127), accumulating exactly
in the order of the code.  The guard `if (userLat && userLng)` is JS number
truthiness: the distance penalty is skipped when either coordinate is `0`
(or `NaN`, which the real-number model cannot represent). -/
noncomputable def scoreEvent (e : Event) (userLat userLng : Real) (now : Int) : Real :=
  let base : Real := 1000
  let s1 := if userLat ≠ 0 ∧ userLng ≠ 0 then
      base - calculateDistance userLat userLng (e.lat : Real) (e.lng : Real) * 10
    else base
  let s2 := s1 + (if e.isLiveNow then 500 else 0)
  let h : Real := ((e.startTime - now : Int) : Real) / (60 * 60 * 1000)
  let s3 := s2 + (if 0 < h ∧ h ≤ 2 then 200
    else if 2 < h ∧ h ≤ 6 then 100
    else if 6 < h ∧ h ≤ 24 then 50
    else 0)
  let s4 := s3 + (if e.priceType = "free" then 50 else 0)
  let s5 := s4 + (if truthyStr e.imageUrl then 25 else 0)
  let s6 := s5 + (if truthyStr e.url then 10 else 0)
  max 0 s6

open Classical in
/-- The scoring formula exactly as claim C2 states it: base 1000, minus ten
points per km of Haversine distance from the viewer (unconditionally, since a
supplied viewer position has known coordinates), plus the live, imminence,
free-price, image and url bonuses, clamped to non-negative. -/
noncomputable def scoreClaimC2 (e : Event) (userLat userLng : Real) (now : Int) : Real :=
  let h : Real := ((e.startTime - now : Int) : Real) / (60 * 60 * 1000)
  max 0 (1000 - 10 * calculateDistance userLat userLng (e.lat : Real) (e.lng : Real)
    + (if e.isLiveNow then 500 else 0)
    + (if 0 < h ∧ h ≤ 2 then 200 else if 0 < h ∧ h ≤ 6 then 100
        else if 0 < h ∧ h ≤ 24 then 50 else 0)
    + (if e.priceType = "free" then 50 else 0)
    + (if truthyStr e.imageUrl then 25 else 0)
    + (if truthyStr e.url then 10 else 0))

/-- The cached payload `{ updatedAt, count, data }`; `updatedAt` keeps the
instant the ISO string renders. -/
structure Payload where
  updatedAt : Int
  count : Nat
  data : List Event
deriving DecidableEq

/-- The two cache tiers of the aggregator: the process-local slot
`CACHE = { at, json }` (`none` models `json: null`) and the Vercel KV entry
together with its write time (its 300 s TTL is applied on read). -/
structure CacheState where
  tier1 : Option (Int × Payload)
  kv : Option (Int × Payload)
deriving DecidableEq

/-- How many times one request invoked each of the four source adapters. -/
structure AdapterCalls where
  linkedevents : Nat
  myhelsinki : Nat
  eventbrite : Nat
  meetup : Nat
deriving DecidableEq

/-- The freshness test `CACHE.json && now - CACHE.at < TTL_MS` (90 000 ms). -/
def tier1Fresh (st : CacheState) (now : Int) : Bool :=
  match st.tier1 with
  | some (t0, _) => decide (now - t0 < 90000)
  | none => false

/-- The guarded KV read: `kv.get(KV_KEY)` behind `process.env.KV_REST_API_URL`,
returning the entry while its 300 s TTL has not yet expired. -/
def kvGet (kvA : Bool) (st : CacheState) (now : Int) : Option Payload :=
  if kvA then
    match st.kv with
    | some (tw, p) => if now - tw < 300000 then some p else none
    | none => none
  else none

/-- The aggregation pipeline of the cold path: merge the two fetched lists,
deduplicate, then set `isLiveNow` and `score` on each event.  `scoreF` stands
for `scoreEvent(event, lat, lng, now)`, whose real-valued result is
irrelevant to the cache and response-shape claims. -/
def aggregate (linked myh : List Event) (scoreF : Event → Rat) (now : Int) : Payload :=
  let merged := dedupeEvents (linked ++ myh)
  let scored := merged.map (fun e =>
    let e1 := { e with isLiveNow := isLiveNow e now }
    { e1 with score := scoreF e1 })
  { updatedAt := now, count := scored.length, data := scored }

/-- The tier-1-miss path of the handler: consult KV, refilling tier 1 on a
hit; otherwise fetch LinkedEvents and MyHelsinki (once each — the Eventbrite
and Meetup adapters are not invoked by the handler), aggregate, write tier 1
synchronously and KV fire-and-forget. -/
def handlerCold (kvA : Bool) (linked myh : List Event) (scoreF : Event → Rat)
    (st : CacheState) (now : Int) : CacheState × Payload × AdapterCalls :=
  match kvGet kvA st now with
  | some p => ({ st with tier1 := some (now, p) }, p, ⟨0, 0, 0, 0⟩)
  | none =>
      let p := aggregate linked myh scoreF now
      ({ tier1 := some (now, p), kv := if kvA then some (now, p) else st.kv }, p, ⟨1, 1, 0, 0⟩)

/-- The cache logic of the handler of `src/unnamed/part_014` (lines 589-652):
serve tier 1 while fresh, else fall through to `handlerCold`. -/
def handlerStep (kvA : Bool) (linked myh : List Event) (scoreF : Event → Rat)
    (st : CacheState) (now : Int) : CacheState × Payload × AdapterCalls :=
  match st.tier1 with
  | some (t0, p) =>
      if now - t0 < 90000 then (st, p, ⟨0, 0, 0, 0⟩)
      else handlerCold kvA linked myh scoreF st now
  | none => handlerCold kvA linked myh scoreF st now

/-- Digit run to a natural number. -/
def digitsVal (l : List Char) : Nat :=
  l.foldl (fun a c => 10 * a + (c.toNat - 48)) 0

/-- JS `parseFloat` on the plain decimal strings the endpoints receive:
optional leading whitespace and sign, digits, optional fraction, trailing
garbage ignored; `none` models `NaN`.  (Exponents and `Infinity` are outside
the inputs any claim exercises.) -/
def jsParseFloat (s : String) : Option Rat :=
  let cs := s.data.dropWhile Char.isWhitespace
  let sign : Int := if cs.head? = some '-' then -1 else 1
  let cs2 := if cs.head? = some '-' ∨ cs.head? = some '+' then cs.tail else cs
  let intPart := cs2.takeWhile Char.isDigit
  let rest := cs2.dropWhile Char.isDigit
  let fracPart :=
    match rest with
    | '.' :: r => r.takeWhile Char.isDigit
    | _ => []
  if intPart.isEmpty && fracPart.isEmpty then none
  else some (mkRat (sign * ((digitsVal intPart : Int) * (10 ^ fracPart.length : Nat) +
    (digitsVal fracPart : Int))) (10 ^ fracPart.length))

/-- JS `x || d` for a nullable string: the default replaces both `null` and
the empty string. -/
def jsOr (o : Option String) (d : String) : String :=
  match o with
  | some s => if s = "" then d else s
  | none => d

/-- Substring test on character lists (JS `String.prototype.includes`). -/
def containsSeq (hay pat : List Char) : Bool :=
  match hay with
  | [] => pat.isEmpty
  | _ :: t => pat.isPrefixOf hay || containsSeq t pat

/-- JS `s.includes(sub)`. -/
def jsIncludes (s sub : String) : Bool :=
  containsSeq s.data sub.data

/-- The raw query string parameters of the events handler. -/
structure RawQuery where
  lat : Option String
  lng : Option String
  radiusKm : Option String
  limit : Option String
  q : Option String
  category : Option String
  freeOnly : Option String
  liveOnly : Option String
  bbox : Option String

/-- The parsed query parameters (lines 574-587 of `src/unnamed/part_014`).
`none` in a numeric field models `NaN`. -/
structure Params where
  lat : Option Rat
  lng : Option Rat
  radiusKm : Option Rat
  limit : Nat
  q : String
  category : Option String
  freeOnly : Bool
  liveOnly : Bool
  bounds : Option (Rat × Rat × Rat × Rat)

/-- Parse `bbox=minLng,minLat,maxLng,maxLat`; `some` exactly when the string
splits into four finite numbers (`hasBBox`). -/
def parseBbox (o : Option String) : Option (Rat × Rat × Rat × Rat) :=
  match o with
  | none => none
  | some s =>
      match (s.splitOn ",").map jsParseFloat with
      | [some a, some b, some c, some d] => some (a, b, c, d)
      | _ => none

/-- Parse `limit`: `Math.max(1, Math.min(1000, Number(param) || 200))`,
truncated as `Array.slice` does. -/
def parseLimit (o : Option String) : Nat :=
  let v : Rat :=
    match o with
    | none => 200
    | some s =>
        match jsParseFloat s with
        | none => 200
        | some x => if x = 0 then 200 else x
  (max 1 (min 1000 v)).floor.toNat

/-- The query-parameter parsing of the events handler.  Note that `lat` and
`lng` are parsed with `parseFloat` and range-validated nowhere. -/
def parseParams (r : RawQuery) : Params :=
  { lat := jsParseFloat (jsOr r.lat "60.1699")
    lng := jsParseFloat (jsOr r.lng "24.9384")
    radiusKm := (jsParseFloat (jsOr r.radiusKm "5")).map (fun x => max 1 (min 50 x))
    limit := parseLimit r.limit
    q := jsToLower (r.q.getD "")
    category := r.category
    freeOnly := r.freeOnly.getD "" = "true"
    liveOnly := r.liveOnly.getD "" = "true"
    bounds := parseBbox r.bbox }

/-- Stable descending sort by score, modelling the stable
`out.sort((a, b) => b.score - a.score)`. -/
def sortByScoreDesc (l : List Event) : List Event :=
  l.mergeSort (fun a b => decide (b.score ≤ a.score))

open Classical in
/-- The filter / sort / limit stage of the handler (lines 654-686), applied to
the cached data on every request. -/
noncomputable def applyFilters (p : Params) (data : List Event) : List Event :=
  let out1 := if p.q = "" then data else
    data.filter (fun e => jsIncludes (jsToLower e.title) p.q ||
      jsIncludes (jsToLower e.description) p.q || jsIncludes (jsToLower e.venueName) p.q)
  let out2 :=
    if truthyStr p.category then out1.filter (fun e => e.category = p.category.getD "")
    else out1
  let out3 := if p.freeOnly then out2.filter (fun e => e.priceType = "free") else out2
  let out4 := if p.liveOnly then out3.filter (fun e => e.isLiveNow) else out3
  let out5 :=
    if p.bounds.isSome then out4
    else
      match p.radiusKm with
      | none => out4
      | some r =>
          if r < 50 then
            match p.lat, p.lng with
            | some la, some ln =>
                out4.filter (fun e =>
                  decide (calculateDistance (la : Real) (ln : Real)
                    (e.lat : Real) (e.lng : Real) ≤ (r : Real)))
            | _, _ => []
          else out4
  (sortByScoreDesc out5).take p.limit

/-- An HTTP response with the JSON body fields the handlers emit. -/
structure AggResponse where
  status : Nat
  error : Option String
  message : Option String
  updatedAt : Option Int
  count : Option Nat
  data : Option (List Event)

/-- The 200 response of the events handler (lines 688-693):
`{ updatedAt: payload.updatedAt, count: out.length, data: out }`. -/
noncomputable def respond (p : Params) (payload : Payload) : AggResponse :=
  let out := applyFilters p payload.data
  { status := 200, error := none, message := none,
    updatedAt := some payload.updatedAt, count := some out.length, data := some out }

/-- One full request to the events handler of `src/unnamed/part_014`:
parse parameters, run the cache hierarchy, filter and respond. -/
noncomputable def aggregatorHandler (kvA : Bool) (linked myh : List Event)
    (scoreF : Event → Rat) (st : CacheState) (r : RawQuery) (now : Int) :
    CacheState × AggResponse × AdapterCalls :=
  let res := handlerStep kvA linked myh scoreF st now
  (res.1, respond (parseParams r) res.2.1, res.2.2)

/-- The catch clause of the events handler (lines 694-699):
`res.status(500).json({ error: "events-lite failed", message: err?.message })`. -/
def aggregatorCatch (msg : String) : AggResponse :=
  { status := 500, error := some "events-lite failed", message := some msg,
    updatedAt := none, count := none, data := none }

/-- The 500 response of the minimal proxy handler of `src/unnamed/part_013`
when the upstream responds non-OK: the thrown message
`Upstream HTTP ${r.status}` lands verbatim in the body. -/
def liteUpstreamFail (status : Nat) : AggResponse :=
  { status := 500, error := some "events-lite failed",
    message := some ("Upstream HTTP " ++ toString status),
    updatedAt := none, count := none, data := none }

/-- The simplified event of the minimal proxy handler of `src/unnamed/part_013`. -/
structure LiteEvent where
  id : String
  title : String
  time : String
  lat : Rat
  lng : Rat
  category : String
  price : String
  website : Option String
deriving DecidableEq

/-- The cached payload of the minimal proxy handler. -/
structure LitePayload where
  updatedAt : Int
  count : Nat
  data : List LiteEvent
deriving DecidableEq

/-- The 200 response shape of the minimal proxy handler (lines 284-291 of
`src/unnamed/part_013`): filter by `q`, `price`, `category`, slice to `limit`,
respond `{ updatedAt: payload.updatedAt, count: out.length, data: out }`.
The `data` field is reported through its length. -/
def liteRespond (q : String) (price category : Option String) (limit : Nat)
    (payload : LitePayload) : Nat × Option Int × Option Nat × List LiteEvent :=
  let out1 := if q = "" then payload.data else
    payload.data.filter (fun e => jsIncludes (jsToLower e.title) q)
  let out2 :=
    if truthyStr price then out1.filter (fun e => e.price = price.getD "") else out1
  let out3 :=
    if truthyStr category then out2.filter (fun e => e.category = category.getD "")
    else out2
  let out := out3.take limit
  (200, some payload.updatedAt, some out.length, out)

/-- The per-client record of the rate limiter (`resetTime` is the window
start, as in the source). -/
structure RateRecord where
  count : Nat
  resetTime : Int
deriving DecidableEq

/-- The result record `{ allowed, remaining, resetTime, limit }`. -/
structure RateResult where
  allowed : Bool
  remaining : Int
  resetTime : Int
  limit : Nat
deriving DecidableEq

/-- One request through the middleware of `createRateLimiter`
(`src/unnamed/part_015`, lines 20-66): look up or create the client record,
reset it when the window has elapsed, increment, and gate on
`count <= maxRequests`. -/
def rateLimitStep (maxRequests : Nat) (windowMs : Int)
    (store : List (String × RateRecord)) (id : String) (now : Int) :
    List (String × RateRecord) × RateResult :=
  let cur : RateRecord :=
    match alookup id store with
    | some rec => if now - rec.resetTime > windowMs then { count := 0, resetTime := now } else rec
    | none => { count := 0, resetTime := now }
  let upd : RateRecord := { cur with count := cur.count + 1 }
  (mapSet id upd store,
    { allowed := decide (upd.count ≤ maxRequests),
      remaining := max 0 ((maxRequests : Int) - (upd.count : Int)),
      resetTime := upd.resetTime + windowMs,
      limit := maxRequests })

/-- `validateLatitude` of `src/unnamed/part_015` (lines 99-105): parse, then
reject `NaN` and anything outside `[-90, 90]` with a message naming the
field and echoing the raw value. -/
def validateLatitude (value : String) : Except String Rat :=
  match jsParseFloat value with
  | none => Except.error ("Invalid latitude: " ++ value)
  | some num =>
      if num < -90 ∨ num > 90 then Except.error ("Invalid latitude: " ++ value)
      else Except.ok num

/-- The catch clause of the Google Places proxy handler
(`src/api/events-lite.js`, third handler): a validation message containing
`Invalid` maps to 400 with that message; anything else maps to a generic 500. -/
def placesErrorResponse (msg : String) : AggResponse :=
  if !(msg == "") && jsIncludes msg "Invalid" then
    { status := 400, error := some msg, message := none,
      updatedAt := none, count := none, data := none }
  else
    { status := 500, error := some "Failed to fetch from Google Places API", message := none,
      updatedAt := none, count := none, data := none }

/-- Invariant of the deduplication fold: keys are distinct, each stored event
carries its own key, and the entry for each key is the running best of the
processed part of that key class. -/
def SeenInv (seen : List (String × Event)) (processed : List Event) : Prop :=
  (seen.map Prod.fst).Nodup ∧
  (∀ p ∈ seen, fuzzyKey p.2 = p.1) ∧
  (∀ k : String, alookup k seen = none →
    processed.filter (fun e => fuzzyKey e == k) = []) ∧
  (∀ (k : String) (v : Event), alookup k seen = some v →
    ∃ hd tl, processed.filter (fun e => fuzzyKey e == k) = hd :: tl ∧ v = pickBest hd tl)

/-- A bare event used to build concrete test inputs. -/
def evA : Event :=
  { id := "linkedevents_1", source := "linkedevents", title := "a", description := "",
    startTime := 0, endTime := none, lat := 60, lng := 24, venueName := "v",
    city := "Helsinki", category := "other", priceType := "paid", url := none,
    imageUrl := none, isLiveNow := false, score := 0 }

/-- The same real-world event as `evA` reported by a second source, with url
and image present (higher completeness). -/
def evB : Event :=
  { evA with
    id := "myhelsinki_1"
    source := "myhelsinki"
    url := some "u"
    imageUrl := some "i" }

/-- An event spanning 26 hours: inside its window at 13 h but beyond the
claimed 12-hour live ceiling. -/
def evC3 : Event :=
  { evA with startTime := 0, endTime := some 93600000 }

/-- An event on the equator 60 degrees of longitude away from the viewer
position used in the C2 counterexample. -/
def evC2 : Event :=
  { evA with lat := 0, lng := 90 }

/-- A raw query supplying `lat=999`, the C9 probe input. -/
def rawLat999 : RawQuery :=
  { lat := some "999", lng := none, radiusKm := none, limit := none, q := none,
    category := none, freeOnly := none, liveOnly := none, bbox := none }

/-- An empty raw query: every parameter takes its default. -/
def rawEmpty : RawQuery :=
  { lat := none, lng := none, radiusKm := none, limit := none, q := none,
    category := none, freeOnly := none, liveOnly := none, bbox := none }

theorem alookup_mapSet_self {α : Type} (k : String) (v : α) (s : List (String × α)) :
    alookup k (mapSet k v s) = some v := by
  induction s with
  | nil => simp [mapSet, alookup]
  | cons hd tl ih =>
      obtain ⟨k', v'⟩ := hd
      by_cases h : k' = k
      · simp [mapSet, h, alookup]
      · simp [mapSet, h, alookup, ih]

theorem alookup_mapSet_ne {α : Type} {k k' : String} (h : k' ≠ k) (v : α)
    (s : List (String × α)) : alookup k' (mapSet k v s) = alookup k' s := by
  have hne : k ≠ k' := Ne.symm h
  induction s with
  | nil => simp [mapSet, alookup, hne]
  | cons hd tl ih =>
      obtain ⟨k'', v''⟩ := hd
      by_cases hk : k'' = k
      · subst hk
        simp [mapSet, alookup, hne]
      · simp [mapSet, hk, alookup, ih]

theorem alookup_eq_none_iff {α : Type} (k : String) (s : List (String × α)) :
    alookup k s = none ↔ k ∉ s.map Prod.fst := by
  induction s with
  | nil => simp [alookup]
  | cons hd tl ih =>
      obtain ⟨k', v'⟩ := hd
      by_cases h : k' = k
      · simp [alookup, h]
      · have hne : k ≠ k' := fun hh => h hh.symm
        simp [alookup, h, ih, hne]

theorem mapSet_of_alookup_none {α : Type} {k : String} {s : List (String × α)}
    (h : alookup k s = none) (v : α) : mapSet k v s = s ++ [(k, v)] := by
  induction s with
  | nil => simp [mapSet]
  | cons hd tl ih =>
      obtain ⟨k', v'⟩ := hd
      by_cases hk : k' = k
      · simp [alookup, hk] at h
      · simp only [alookup, hk, if_false] at h
        simp [mapSet, hk, ih h]

theorem map_fst_mapSet_of_mem {α : Type} {k : String} {s : List (String × α)}
    (h : ¬ alookup k s = none) (v : α) :
    (mapSet k v s).map Prod.fst = s.map Prod.fst := by
  induction s with
  | nil => simp [alookup] at h
  | cons hd tl ih =>
      obtain ⟨k', v'⟩ := hd
      by_cases hk : k' = k
      · simp [mapSet, hk]
      · simp only [alookup, hk, if_false] at h
        simp [mapSet, hk, ih h]

theorem mem_mapSet {α : Type} {k : String} {v : α} {s : List (String × α)} {p : String × α}
    (hp : p ∈ mapSet k v s) : p ∈ s ∨ p = (k, v) := by
  induction s with
  | nil => simp [mapSet] at hp; simp [hp]
  | cons hd tl ih =>
      obtain ⟨k', v'⟩ := hd
      by_cases hk : k' = k
      · subst hk
        simp only [mapSet, if_pos rfl] at hp
        rcases List.mem_cons.mp hp with h | h
        · right; exact h
        · left; exact List.mem_cons_of_mem _ h
      · simp only [mapSet, if_neg hk] at hp
        rcases List.mem_cons.mp hp with h | h
        · left; rw [h]; exact List.mem_cons_self _ _
        · rcases ih h with h' | h'
          · left; exact List.mem_cons_of_mem _ h'
          · right; exact h'

theorem alookup_append {α : Type} (k : String) (s t : List (String × α)) :
    alookup k (s ++ t) =
      match alookup k s with
      | some v => some v
      | none => alookup k t := by
  induction s with
  | nil => simp [alookup]
  | cons hd tl ih =>
      obtain ⟨k', v'⟩ := hd
      by_cases h : k' = k
      · simp [alookup, h]
      · simp [alookup, h, ih]

theorem pickBest_nil (v : Event) : pickBest v [] = v := rfl

theorem pickBest_cons (v e : Event) (l : List Event) :
    pickBest v (e :: l) = pickBest (if quality v < quality e then e else v) l := rfl

theorem pickBest_append (v : Event) (l : List Event) (e : Event) :
    pickBest v (l ++ [e]) =
      (if quality (pickBest v l) < quality e then e else pickBest v l) := by
  simp [pickBest, List.foldl_append]

/-- The event the deduplicator keeps for a key class is the first element of
the class attaining the maximal completeness quality. -/
theorem pickBest_spec (l : List Event) : ∀ v : Event,
    ∃ l1 l2, v :: l = l1 ++ pickBest v l :: l2 ∧
      (∀ e ∈ v :: l, quality e ≤ quality (pickBest v l)) ∧
      (∀ e ∈ l1, quality e < quality (pickBest v l)) := by
  induction l with
  | nil =>
      intro v
      exact ⟨[], [], by simp [pickBest_nil], by simp [pickBest_nil], by simp⟩
  | cons e rest ih =>
      intro v
      by_cases hq : quality v < quality e
      · obtain ⟨l1, l2, hdecomp, hle, hlt⟩ := ih e
        rw [pickBest_cons, if_pos hq]
        refine ⟨v :: l1, l2, ?_, ?_, ?_⟩
        · simp only [List.cons_append]
          exact congrArg (List.cons v) hdecomp
        · intro x hx
          rcases List.mem_cons.mp hx with h | h
          · subst h
            exact le_of_lt (lt_of_lt_of_le hq (hle e (List.mem_cons_self _ _)))
          · exact hle x h
        · intro x hx
          rcases List.mem_cons.mp hx with h | h
          · subst h
            exact lt_of_lt_of_le hq (hle e (List.mem_cons_self _ _))
          · exact hlt x h
      · obtain ⟨l1, l2, hdecomp, hle, hlt⟩ := ih v
        rw [pickBest_cons, if_neg hq]
        have hqe : quality e ≤ quality v := le_of_not_lt hq
        cases l1 with
        | nil =>
            have hv : v = pickBest v rest := by
              simpa using congrArg (fun l => l.head?) hdecomp
            refine ⟨[], e :: rest, ?_, ?_, ?_⟩
            · simpa using hv
            · intro x hx
              rcases List.mem_cons.mp hx with h | h
              · subst h
                exact hle x (List.mem_cons_self _ _)
              · rcases List.mem_cons.mp h with h' | h'
                · subst h'
                  exact le_trans hqe (hle v (List.mem_cons_self _ _))
                · exact hle x (List.mem_cons_of_mem _ h')
            · intro x hx
              simp at hx
        | cons w t =>
            have hw : v = w := by
              simpa using congrArg (fun l => l.head?) hdecomp
            have hrest : rest = t ++ pickBest v rest :: l2 := by
              have := congrArg List.tail hdecomp
              simpa using this
            have hvlt : quality v < quality (pickBest v rest) := by
              apply hlt
              rw [hw]
              exact List.mem_cons_self _ _
            refine ⟨v :: e :: t, l2, ?_, ?_, ?_⟩
            · rw [List.cons_append, List.cons_append, ← hrest]
            · intro x hx
              rcases List.mem_cons.mp hx with h | h
              · subst h
                exact hle x (List.mem_cons_self _ _)
              · rcases List.mem_cons.mp h with h' | h'
                · subst h'
                  exact le_trans hqe (le_of_lt hvlt)
                · exact hle x (List.mem_cons_of_mem _ h')
            · intro x hx
              rcases List.mem_cons.mp hx with h | h
              · subst h
                exact hvlt
              · rcases List.mem_cons.mp h with h' | h'
                · subst h'
                  exact lt_of_le_of_lt hqe hvlt
                · exact hlt x (List.mem_cons_of_mem _ h')

theorem seenInv_nil : SeenInv [] [] := by
  refine ⟨by simp, by simp, ?_, ?_⟩
  · intro k _
    simp
  · intro k v hk
    simp [alookup] at hk

theorem seenInv_step {seen : List (String × Event)} {processed : List Event}
    (h : SeenInv seen processed) (e : Event) :
    SeenInv (dedupeStep seen e) (processed ++ [e]) := by
  obtain ⟨hnd, hcons, hnone, hsome⟩ := h
  have hfilt : ∀ k : String, (processed ++ [e]).filter (fun x => fuzzyKey x == k) =
      processed.filter (fun x => fuzzyKey x == k) ++
        (if fuzzyKey e == k then [e] else []) := by
    intro k
    rw [List.filter_append]
    congr 1
    by_cases hk : fuzzyKey e = k
    · simp [List.filter, hk]
    · have hb : (fuzzyKey e == k) = false := by simp [hk]
      simp [List.filter, hb]
  have hfilt_ne : ∀ k : String, ¬ fuzzyKey e = k →
      (processed ++ [e]).filter (fun x => fuzzyKey x == k) =
        processed.filter (fun x => fuzzyKey x == k) := by
    intro k hk
    rw [hfilt k, if_neg (by simpa using hk)]
    simp
  have hfilt_eq : (processed ++ [e]).filter (fun x => fuzzyKey x == fuzzyKey e) =
      processed.filter (fun x => fuzzyKey x == fuzzyKey e) ++ [e] := by
    rw [hfilt, if_pos (by simp)]
  cases ha : alookup (fuzzyKey e) seen with
  | none =>
      have hstep : dedupeStep seen e = mapSet (fuzzyKey e) e seen := by
        simp [dedupeStep, ha]
      have happ := mapSet_of_alookup_none ha e
      rw [hstep]
      refine ⟨?_, ?_, ?_, ?_⟩
      · rw [happ, List.map_append, List.nodup_append]
        refine ⟨hnd, by simp, ?_⟩
        simp only [List.map_cons, List.map_nil, List.disjoint_singleton]
        exact (alookup_eq_none_iff _ _).mp ha
      · intro p hp
        rcases mem_mapSet hp with h' | h'
        · exact hcons p h'
        · rw [h']
      · intro k hk
        by_cases hkk : k = fuzzyKey e
        · subst hkk
          rw [alookup_mapSet_self] at hk
          cases hk
        · rw [alookup_mapSet_ne (fun hh => hkk hh) e seen] at hk
          rw [hfilt_ne k (fun hh => hkk hh.symm)]
          exact hnone k hk
      · intro k v hk
        by_cases hkk : k = fuzzyKey e
        · subst hkk
          rw [alookup_mapSet_self] at hk
          injection hk with hv
          subst hv
          refine ⟨e, [], ?_, by rw [pickBest_nil]⟩
          rw [hfilt_eq, hnone (fuzzyKey e) ha]
          rfl
        · rw [alookup_mapSet_ne (fun hh => hkk hh) e seen] at hk
          obtain ⟨hd, tl, hfe, hpb⟩ := hsome k v hk
          exact ⟨hd, tl, by rw [hfilt_ne k (fun hh => hkk hh.symm), hfe], hpb⟩
  | some w =>
      obtain ⟨hd, tl, hfe, hpb⟩ := hsome (fuzzyKey e) w ha
      by_cases hq : quality w < quality e
      · have hstep : dedupeStep seen e = mapSet (fuzzyKey e) e seen := by
          simp [dedupeStep, ha, hq]
        rw [hstep]
        refine ⟨?_, ?_, ?_, ?_⟩
        · rw [map_fst_mapSet_of_mem (by simp [ha]) e]
          exact hnd
        · intro p hp
          rcases mem_mapSet hp with h' | h'
          · exact hcons p h'
          · rw [h']
        · intro k hk
          by_cases hkk : k = fuzzyKey e
          · subst hkk
            rw [alookup_mapSet_self] at hk
            cases hk
          · rw [alookup_mapSet_ne (fun hh => hkk hh) e seen] at hk
            rw [hfilt_ne k (fun hh => hkk hh.symm)]
            exact hnone k hk
        · intro k v hk
          by_cases hkk : k = fuzzyKey e
          · subst hkk
            rw [alookup_mapSet_self] at hk
            injection hk with hv
            subst hv
            refine ⟨hd, tl ++ [e], ?_, ?_⟩
            · rw [hfilt_eq, hfe]
              simp
            · rw [pickBest_append, ← hpb, if_pos hq]
          · rw [alookup_mapSet_ne (fun hh => hkk hh) e seen] at hk
            obtain ⟨hd2, tl2, hfe2, hpb2⟩ := hsome k v hk
            exact ⟨hd2, tl2, by rw [hfilt_ne k (fun hh => hkk hh.symm), hfe2], hpb2⟩
      · have hstep : dedupeStep seen e = seen := by
          simp [dedupeStep, ha, hq]
        rw [hstep]
        refine ⟨hnd, hcons, ?_, ?_⟩
        · intro k hk
          have hkk : ¬ k = fuzzyKey e := by
            intro hh
            subst hh
            rw [hk] at ha
            cases ha
          rw [hfilt_ne k (fun hh => hkk hh.symm)]
          exact hnone k hk
        · intro k v hk
          by_cases hkk : k = fuzzyKey e
          · subst hkk
            rw [ha] at hk
            injection hk with hv
            subst hv
            refine ⟨hd, tl ++ [e], ?_, ?_⟩
            · rw [hfilt_eq, hfe]
              simp
            · rw [pickBest_append, ← hpb, if_neg hq]
          · obtain ⟨hd2, tl2, hfe2, hpb2⟩ := hsome k v hk
            exact ⟨hd2, tl2, by rw [hfilt_ne k (fun hh => hkk hh.symm), hfe2], hpb2⟩


theorem seenInv_foldl (evs : List Event) :
    ∀ seen processed, SeenInv seen processed →
      SeenInv (evs.foldl dedupeStep seen) (processed ++ evs) := by
  induction evs with
  | nil => intro seen processed h; simpa using h
  | cons e rest ih =>
      intro seen processed h
      have := ih (dedupeStep seen e) (processed ++ [e]) (seenInv_step h e)
      simpa using this

theorem seenInv_dedupe (evs : List Event) :
    SeenInv (evs.foldl dedupeStep []) evs := by
  simpa using seenInv_foldl evs [] [] seenInv_nil

theorem filter_map_snd {seen : List (String × Event)}
    (hnd : (seen.map Prod.fst).Nodup) (hcons : ∀ p ∈ seen, fuzzyKey p.2 = p.1)
    (k : String) :
    (seen.map Prod.snd).filter (fun e => fuzzyKey e == k) = (alookup k seen).toList := by
  induction seen with
  | nil => simp [alookup]
  | cons hd tl ih =>
      obtain ⟨k', v'⟩ := hd
      have hkey : fuzzyKey v' = k' := hcons (k', v') (List.mem_cons_self _ _)
      have hnd' : (tl.map Prod.fst).Nodup := (List.nodup_cons.mp hnd).2
      have hnotin : k' ∉ tl.map Prod.fst := (List.nodup_cons.mp hnd).1
      have hcons' : ∀ p ∈ tl, fuzzyKey p.2 = p.1 :=
        fun p hp => hcons p (List.mem_cons_of_mem _ hp)
      by_cases h : k' = k
      · subst h
        have htl : (tl.map Prod.snd).filter (fun e => fuzzyKey e == k') = [] := by
          rw [List.filter_eq_nil_iff]
          intro a ha
          obtain ⟨p, hp, hpa⟩ := List.mem_map.mp ha
          have : fuzzyKey a = p.1 := hpa ▸ hcons' p hp
          have hne : p.1 ≠ k' := fun hh => hnotin (hh ▸ List.mem_map_of_mem Prod.fst hp)
          simp [this, hne]
        simp [alookup, List.filter, hkey, htl]
      · have hne : ¬ (fuzzyKey v' == k) = true := by simp [hkey, h]
        simp only [List.map_cons, List.filter, hne, alookup, h, if_false]
        exact ih hnd' hcons'


/-- C1: whenever one or more input events share a fuzzy dedup key (normalised
title, lowercased venue and start hour), the deduplicator outputs exactly one
event for that key: the first member of the key class attaining the maximal
completeness quality (`url` +10, `imageUrl` +20, `description` +5,
`endTime` +5), so a strictly higher-quality event wins and ties keep the
first-seen event.  Stated for every nonempty key class, which covers the
claimed case of two or more sharers. -/
theorem c1_dedupe_keeps_first_best (evs : List Event) (k : String)
    (h : evs.filter (fun e => fuzzyKey e == k) ≠ []) :
    ∃ e l1 l2,
      (dedupeEvents evs).filter (fun x => fuzzyKey x == k) = [e] ∧
      evs.filter (fun x => fuzzyKey x == k) = l1 ++ e :: l2 ∧
      (∀ x ∈ evs.filter (fun x => fuzzyKey x == k), quality x ≤ quality e) ∧
      (∀ x ∈ l1, quality x < quality e) := by
  obtain ⟨hnd, hcons, hnone, hsome⟩ := seenInv_dedupe evs
  cases ha : alookup k (evs.foldl dedupeStep []) with
  | none => exact absurd (hnone k ha) h
  | some v =>
      obtain ⟨hd, tl, hfe, hpb⟩ := hsome k v ha
      obtain ⟨l1, l2, hdec, hle, hlt⟩ := pickBest_spec tl hd
      rw [← hpb] at hdec hle hlt
      refine ⟨v, l1, l2, ?_, ?_, ?_, ?_⟩
      · have hms := filter_map_snd hnd hcons k
        calc (dedupeEvents evs).filter (fun x => fuzzyKey x == k)
            = ((evs.foldl dedupeStep []).map Prod.snd).filter (fun x => fuzzyKey x == k) := rfl
          _ = (alookup k (evs.foldl dedupeStep [])).toList := hms
          _ = [v] := by rw [ha]; rfl
      · rw [hfe]
        exact hdec
      · intro x hx
        rw [hfe] at hx
        exact hle x hx
      · exact hlt

/-- Witness for C1 at a concrete pair of events sharing a key, where the
second event has strictly higher completeness quality. -/
theorem c1_witness :
    ([evA, evB].filter (fun e => fuzzyKey e == fuzzyKey evA) ≠ []) ∧
    (∃ e l1 l2,
      (dedupeEvents [evA, evB]).filter (fun x => fuzzyKey x == fuzzyKey evA) = [e] ∧
      [evA, evB].filter (fun x => fuzzyKey x == fuzzyKey evA) = l1 ++ e :: l2 ∧
      (∀ x ∈ [evA, evB].filter (fun x => fuzzyKey x == fuzzyKey evA), quality x ≤ quality e) ∧
      (∀ x ∈ l1, quality x < quality e)) :=
  ⟨by decide, c1_dedupe_keeps_first_best [evA, evB] (fuzzyKey evA) (by decide)⟩

theorem dedupe_keys_nodup (evs : List Event) :
    ((dedupeEvents evs).map fuzzyKey).Nodup := by
  obtain ⟨hnd, hcons, _, _⟩ := seenInv_dedupe evs
  have hmap : (dedupeEvents evs).map fuzzyKey = (evs.foldl dedupeStep []).map Prod.fst := by
    rw [dedupeEvents, List.map_map]
    exact List.map_congr_left (fun p hp => hcons p hp)
  rw [hmap]
  exact hnd

theorem foldl_dedupeStep_all_new : ∀ (evs : List Event) (seen : List (String × Event)),
    (evs.map fuzzyKey).Nodup → (∀ e ∈ evs, alookup (fuzzyKey e) seen = none) →
    evs.foldl dedupeStep seen = seen ++ evs.map (fun e => (fuzzyKey e, e)) := by
  intro evs
  induction evs with
  | nil =>
      intro seen _ _
      simp
  | cons e rest ih =>
      intro seen hnd hnone
      have ha : alookup (fuzzyKey e) seen = none := hnone e (List.mem_cons_self _ _)
      have hstep : dedupeStep seen e = seen ++ [(fuzzyKey e, e)] := by
        simp [dedupeStep, ha, mapSet_of_alookup_none ha]
      rw [List.map_cons] at hnd
      obtain ⟨hnotin, hnd2⟩ := List.nodup_cons.mp hnd
      have hnone2 : ∀ x ∈ rest, alookup (fuzzyKey x) (seen ++ [(fuzzyKey e, e)]) = none := by
        intro x hx
        rw [alookup_append, hnone x (List.mem_cons_of_mem _ hx)]
        have hne : ¬ fuzzyKey e = fuzzyKey x := by
          intro hh
          exact hnotin (hh ▸ List.mem_map_of_mem fuzzyKey hx)
        simp [alookup, hne]
      calc (e :: rest).foldl dedupeStep seen
          = rest.foldl dedupeStep (dedupeStep seen e) := rfl
        _ = rest.foldl dedupeStep (seen ++ [(fuzzyKey e, e)]) := by rw [hstep]
        _ = (seen ++ [(fuzzyKey e, e)]) ++ rest.map (fun x => (fuzzyKey x, x)) :=
            ih _ hnd2 hnone2
        _ = seen ++ (e :: rest).map (fun x => (fuzzyKey x, x)) := by simp

theorem dedupe_of_nodup_keys (evs : List Event) (h : (evs.map fuzzyKey).Nodup) :
    dedupeEvents evs = evs := by
  rw [dedupeEvents, foldl_dedupeStep_all_new evs [] h (fun e _ => rfl)]
  simp only [List.nil_append, List.map_map]
  exact (List.map_congr_left (fun a _ => rfl)).trans (List.map_id evs)

/-- C7: deduplication is idempotent — applying the deduplicator to its own
output returns that output unchanged (even as a list, hence also as a set),
because the output has pairwise distinct fuzzy keys. -/
theorem c7_dedupe_idempotent (evs : List Event) :
    dedupeEvents (dedupeEvents evs) = dedupeEvents evs :=
  dedupe_of_nodup_keys _ (dedupe_keys_nodup evs)

/-- C3 counterexample: an event spanning 26 hours whose window contains the
instant 13 h after its start.  The aggregator's `isLiveNow` classifies it
live, while the claimed classification (window AND span within the 12-hour
ceiling) does not. -/
theorem c3_counterexample :
    isLiveNow evC3 46800000 = true ∧ liveClaimC3 evC3 46800000 = false := by
  constructor <;> decide

/-- C3 (amended): the aggregator's `isLiveNow` checks only the window, with a
2-hour default duration and no span ceiling; the 12-hour ceiling exists only
in the client-side live check of `src/unnamed/part_004`, which uses a 6-hour
default duration (never tripping the ceiling when the end time is absent) and
returns false for a missing start. -/
theorem c3_amended :
    (∀ (e : Event) (now : Int),
      isLiveNow e now = true ↔
        e.startTime ≤ now ∧ now ≤ e.endTime.getD (e.startTime + 7200000)) ∧
    (∀ (s en now : Int),
      isLiveNowClient (some s) (some en) now = true ↔
        s ≤ now ∧ now ≤ en ∧ en - s ≤ 43200000) ∧
    (∀ (s now : Int),
      isLiveNowClient (some s) none now = true ↔ s ≤ now ∧ now ≤ s + 21600000) ∧
    (∀ (endT : Option Int) (now : Int), isLiveNowClient none endT now = false) := by
  refine ⟨?_, ?_, ?_, ?_⟩
  · intro e now
    cases he : e.endTime with
    | none =>
        simp only [isLiveNow, he, Option.getD_none]
        constructor
        · intro hb
          rw [Bool.and_eq_true, decide_eq_true_eq, decide_eq_true_eq] at hb
          exact ⟨hb.1, by omega⟩
        · intro hb
          rw [Bool.and_eq_true, decide_eq_true_eq, decide_eq_true_eq]
          exact ⟨hb.1, by omega⟩
    | some en =>
        simp only [isLiveNow, he, Option.getD_some]
        rw [Bool.and_eq_true, decide_eq_true_eq, decide_eq_true_eq]
  · intro s en now
    simp only [isLiveNowClient, Option.getD_some]
    constructor
    · intro hb
      by_cases h1 : s > now ∨ now > en
      · rw [if_pos (by simpa using h1)] at hb
        cases hb
      · push_neg at h1
        rw [if_neg (by simpa using h1)] at hb
        by_cases h2 : 12 * (1000 * 60 * 60) < en - s
        · rw [if_pos h2] at hb
          cases hb
        · refine ⟨h1.1, h1.2, by omega⟩
    · intro hb
      rw [if_neg (by simp; omega), if_neg (by omega)]
  · intro s now
    simp only [isLiveNowClient, Option.getD_none]
    constructor
    · intro hb
      by_cases h1 : s > now ∨ now > s + 6 * 60 * 60 * 1000
      · rw [if_pos (by simpa using h1)] at hb
        cases hb
      · push_neg at h1
        exact ⟨h1.1, by omega⟩
    · intro hb
      rw [if_neg (by simp; omega), if_neg (by omega)]
  · intro endT now
    rfl

/-- C5: the fixed-window rate limiter.  First, the concrete scenario with
`maxRequests = 5`, `windowMs = 1000`: six requests inside the window are
allowed, allowed, allowed, allowed, allowed, denied, and a request after the
window has elapsed is allowed again.  Second, in general each request looks
up or creates the client record, resets it when the window has elapsed since
its start, increments the count, stores it back, and is allowed exactly when
the incremented count is at most `maxRequests`. -/
theorem c5_rate_limiter :
    (let r1 := rateLimitStep 5 1000 [] "c" 0
     let r2 := rateLimitStep 5 1000 r1.1 "c" 100
     let r3 := rateLimitStep 5 1000 r2.1 "c" 200
     let r4 := rateLimitStep 5 1000 r3.1 "c" 300
     let r5 := rateLimitStep 5 1000 r4.1 "c" 400
     let r6 := rateLimitStep 5 1000 r5.1 "c" 500
     let r7 := rateLimitStep 5 1000 r6.1 "c" 1501
     r1.2.allowed = true ∧ r2.2.allowed = true ∧ r3.2.allowed = true ∧
       r4.2.allowed = true ∧ r5.2.allowed = true ∧ r6.2.allowed = false ∧
       r7.2.allowed = true) ∧
    (∀ (maxRequests : Nat) (windowMs : Int) (store : List (String × RateRecord))
        (id : String) (now : Int),
      let cur : RateRecord :=
        match alookup id store with
        | some rec => if now - rec.resetTime > windowMs then ⟨0, now⟩ else rec
        | none => ⟨0, now⟩
      let res := rateLimitStep maxRequests windowMs store id now
      alookup id res.1 = some ⟨cur.count + 1, cur.resetTime⟩ ∧
        (res.2.allowed = true ↔ cur.count + 1 ≤ maxRequests)) := by
  constructor
  · decide
  · intro maxRequests windowMs store id now
    refine ⟨?_, ?_⟩
    · exact alookup_mapSet_self id _ store
    · simp [rateLimitStep]

/-- C4 counterexample: on a fully cold request the handler invokes the
LinkedEvents and MyHelsinki adapters once each but never invokes the
Eventbrite or Meetup adapters, so "every source adapter exactly once" fails. -/
theorem c4_counterexample :
    (handlerStep true [] [] (fun _ => 0) ⟨none, none⟩ 0).2.2.linkedevents = 1 ∧
    (handlerStep true [] [] (fun _ => 0) ⟨none, none⟩ 0).2.2.myhelsinki = 1 ∧
    (handlerStep true [] [] (fun _ => 0) ⟨none, none⟩ 0).2.2.eventbrite = 0 ∧
    (handlerStep true [] [] (fun _ => 0) ⟨none, none⟩ 0).2.2.meetup = 0 ∧
    ¬ (handlerStep true [] [] (fun _ => 0) ⟨none, none⟩ 0).2.2.eventbrite = 1 :=
  ⟨rfl, rfl, rfl, rfl, by decide⟩

/-- C4 (amended): a request within the 90 s tier-1 TTL of a populating request
invokes zero adapters and leaves the state unchanged; a request after tier-1
expiry but within the 300 s tier-2 TTL invokes zero adapters and refills
tier 1; a request after both TTLs invokes each of the two wired adapters
(LinkedEvents, MyHelsinki) exactly once — the Eventbrite and Meetup adapters
are defined but never invoked — then writes the fresh payload to tier 1 and,
when the KV store is configured, to tier 2. -/
theorem c4_amended :
    (∀ (kvA : Bool) (linked myh : List Event) (scoreF : Event → Rat)
        (st : CacheState) (now t0 : Int) (p : Payload),
      st.tier1 = some (t0, p) → now - t0 < 90000 →
      handlerStep kvA linked myh scoreF st now = (st, p, ⟨0, 0, 0, 0⟩)) ∧
    (∀ (kvA : Bool) (linked myh : List Event) (scoreF : Event → Rat)
        (st : CacheState) (now tw : Int) (p : Payload),
      tier1Fresh st now = false → kvA = true → st.kv = some (tw, p) →
      now - tw < 300000 →
      handlerStep kvA linked myh scoreF st now =
        ({ st with tier1 := some (now, p) }, p, ⟨0, 0, 0, 0⟩)) ∧
    (∀ (kvA : Bool) (linked myh : List Event) (scoreF : Event → Rat)
        (st : CacheState) (now : Int),
      tier1Fresh st now = false → kvGet kvA st now = none →
      handlerStep kvA linked myh scoreF st now =
        ({ tier1 := some (now, aggregate linked myh scoreF now),
           kv := if kvA then some (now, aggregate linked myh scoreF now) else st.kv },
         aggregate linked myh scoreF now, ⟨1, 1, 0, 0⟩)) := by
  refine ⟨?_, ?_, ?_⟩
  · intro kvA linked myh scoreF st now t0 p h1 h2
    simp [handlerStep, h1, h2]
  · intro kvA linked myh scoreF st now tw p hfresh hkva hkv httl
    subst hkva
    have hkvget : kvGet true st now = some p := by
      simp [kvGet, hkv, httl]
    cases ht : st.tier1 with
    | none => simp [handlerStep, ht, handlerCold, hkvget]
    | some tp =>
        obtain ⟨t0, q⟩ := tp
        have hstale : ¬ now - t0 < 90000 := by
          simpa [tier1Fresh, ht] using hfresh
        simp [handlerStep, ht, hstale, handlerCold, hkvget]
  · intro kvA linked myh scoreF st now hfresh hkvget
    cases ht : st.tier1 with
    | none => simp [handlerStep, ht, handlerCold, hkvget]
    | some tp =>
        obtain ⟨t0, q⟩ := tp
        have hstale : ¬ now - t0 < 90000 := by
          simpa [tier1Fresh, ht] using hfresh
        simp [handlerStep, ht, hstale, handlerCold, hkvget]

/-- Witness for C4: the three cache scenarios at concrete states — a fresh
tier 1 at 1 s, a tier-2 hit at 100 s, and a full cold start at 400 s. -/
theorem c4_witness :
    handlerStep true [] [] (fun _ => 0) ⟨some (0, ⟨0, 0, []⟩), none⟩ 1000 =
      (⟨some (0, ⟨0, 0, []⟩), none⟩, ⟨0, 0, []⟩, ⟨0, 0, 0, 0⟩) ∧
    handlerStep true [] [] (fun _ => 0) ⟨none, some (0, ⟨0, 0, []⟩)⟩ 100000 =
      (⟨some (100000, ⟨0, 0, []⟩), some (0, ⟨0, 0, []⟩)⟩, ⟨0, 0, []⟩, ⟨0, 0, 0, 0⟩) ∧
    handlerStep true [] [] (fun _ => 0) ⟨none, none⟩ 400000 =
      (⟨some (400000, aggregate [] [] (fun _ => 0) 400000),
        some (400000, aggregate [] [] (fun _ => 0) 400000)⟩,
       aggregate [] [] (fun _ => 0) 400000, ⟨1, 1, 0, 0⟩) := by
  refine ⟨?_, ?_, ?_⟩
  · exact c4_amended.1 true [] [] (fun _ => 0) _ 1000 0 ⟨0, 0, []⟩ rfl (by decide)
  · exact c4_amended.2.1 true [] [] (fun _ => 0) _ 100000 0 ⟨0, 0, []⟩ (by decide) rfl rfl
      (by decide)
  · exact c4_amended.2.2 true [] [] (fun _ => 0) _ 400000 (by decide) rfl

theorem containsSeq_of_isPrefixOf {pat hay : List Char} (h : pat.isPrefixOf hay = true) :
    containsSeq hay pat = true := by
  cases hay with
  | nil =>
      cases pat with
      | nil => rfl
      | cons a t => simp [List.isPrefixOf] at h
  | cons c t =>
      have hu : containsSeq (c :: t) pat = (pat.isPrefixOf (c :: t) || containsSeq t pat) := rfl
      rw [hu, h, Bool.true_or]

theorem jsIncludes_of_isPrefixOf (pat pre rest : String)
    (h : pat.data.isPrefixOf pre.data = true) : jsIncludes (pre ++ rest) pat = true := by
  apply containsSeq_of_isPrefixOf
  rw [String.data_append]
  rw [ List.isPrefixOf_iff_prefix] at h ⊢
  exact h.trans ( List.prefix_append _ _)

theorem invalid_msg_ne_empty (v : String) :
    (("Invalid latitude: " ++ v) == "") = false := by
  rw [beq_eq_false_iff_ne]
  intro hcon
  have hlen := congrArg String.length hcon
  rw [String.length_append] at hlen
  have h18 : "Invalid latitude: ".length = 18 := rfl
  have h0 : "".length = 0 := rfl
  rw [h18, h0] at hlen
  omega

theorem applyFilters_nil (p : Params) : applyFilters p [] = [] := by
  have hsort : (sortByScoreDesc []).take p.limit = [] := by
    simp [sortByScoreDesc]
  rw [applyFilters]
  simp only [List.filter_nil, ite_self]
  cases hb : p.bounds.isSome with
  | true => simpa [hb] using hsort
  | false =>
      cases hr : p.radiusKm with
      | none => simpa [hb, hr] using hsort
      | some r =>
          by_cases h50 : r < 50
          · cases hla : p.lat with
            | none => simpa [hb, hr, h50, hla] using hsort
            | some la =>
                cases hln : p.lng with
                | none => simpa [hb, hr, h50, hla, hln] using hsort
                | some ln => simpa [hb, hr, h50, hla, hln] using hsort
          · simpa [hb, hr, h50] using hsort

/-- C8 counterexample: when every adapter fails (each contributes an empty
list, as the adapters catch internally), the aggregator responds 200 with an
empty data set rather than 500; and the 500 body of the minimal proxy handler
carries the upstream HTTP status in its message — the message differs between
upstream statuses, so it is not a generic message free of upstream detail. -/
theorem c8_counterexample :
    (aggregatorHandler true [] [] (fun _ => 0) ⟨none, none⟩ rawEmpty 0).2.1.status = 200 ∧
    ¬ (aggregatorHandler true [] [] (fun _ => 0) ⟨none, none⟩ rawEmpty 0).2.1.status = 500 ∧
    (liteUpstreamFail 503).message = some "Upstream HTTP 503" ∧
    ¬ (liteUpstreamFail 503).message = (liteUpstreamFail 404).message := by
  refine ⟨rfl, by decide, by decide, by decide⟩

/-- C8 (amended): when all adapters fail or return nothing usable the
aggregator responds 200 with `count = 0` and no error field — the 500 path is
reached only when the handler itself throws, and then the body is
`{ error: "events-lite failed", message: err.message }`, which carries the
caught message; in the minimal proxy handler an upstream non-OK status throws
`Upstream HTTP ${status}`, so that upstream detail reaches the 500 body. -/
theorem c8_amended :
    (∀ (kvA : Bool) (scoreF : Event → Rat) (r : RawQuery) (now : Int),
      (aggregatorHandler kvA [] [] scoreF ⟨none, none⟩ r now).2.1.status = 200 ∧
      (aggregatorHandler kvA [] [] scoreF ⟨none, none⟩ r now).2.1.count = some 0 ∧
      (aggregatorHandler kvA [] [] scoreF ⟨none, none⟩ r now).2.1.error = none) ∧
    (∀ s : Nat, liteUpstreamFail s = ⟨500, some "events-lite failed",
      some ("Upstream HTTP " ++ toString s), none, none, none⟩) ∧
    (∀ msg : String, aggregatorCatch msg = ⟨500, some "events-lite failed", some msg,
      none, none, none⟩) := by
  refine ⟨?_, fun s => rfl, fun msg => rfl⟩
  intro kvA scoreF r now
  have hkv : kvGet kvA ⟨none, none⟩ now = none := by cases kvA <;> rfl
  have hagg : (aggregate [] [] scoreF now).data = [] := rfl
  have hstep : handlerStep kvA [] [] scoreF ⟨none, none⟩ now =
      (⟨some (now, aggregate [] [] scoreF now),
        if kvA then some (now, aggregate [] [] scoreF now) else none⟩,
       aggregate [] [] scoreF now, ⟨1, 1, 0, 0⟩) := by
    simp [handlerStep, handlerCold, hkv]
  refine ⟨rfl, ?_, rfl⟩
  show (respond (parseParams r)
      (handlerStep kvA [] [] scoreF ⟨none, none⟩ now).2.1).count = some 0
  rw [hstep]
  show some (applyFilters (parseParams r) (aggregate [] [] scoreF now).data).length = some 0
  rw [hagg, applyFilters_nil]
  rfl

/-- C9 counterexample: the events aggregator parses `lat` with `parseFloat`
and performs no range validation, so `lat=999` flows through — the out-of-range
latitude reaches the scoring and distance components and the request is
answered 200, not rejected 400. -/
theorem c9_counterexample :
    (parseParams rawLat999).lat = some 999 ∧
    (aggregatorHandler true [] [] (fun _ => 0) ⟨none, none⟩ rawLat999 0).2.1.status = 200 ∧
    ¬ (aggregatorHandler true [] [] (fun _ => 0) ⟨none, none⟩ rawLat999 0).2.1.status = 400 := by
  refine ⟨by decide, rfl, by decide⟩

/-- C9 (amended): `validateLatitude` rejects `999` with a message naming the
latitude field, accepts `60.17`, and accepts exactly the parsable values in
`[-90, 90]`; the Google Places proxy maps such validation errors to a 400
response carrying the message.  The events aggregator, however, performs no
latitude validation: any parsable value, in range or not, flows into its
parameters unchanged. -/
theorem jsParseFloat_999 : jsParseFloat "999" = some 999 := by decide

theorem jsParseFloat_6017 : jsParseFloat "60.17" = some (mkRat 6017 100) := by decide

theorem validateLatitude_999 :
    validateLatitude "999" = Except.error "Invalid latitude: 999" := by
  simp only [validateLatitude, jsParseFloat_999]
  rw [if_pos (Or.inr (by norm_num))]
  rfl

theorem validateLatitude_6017 : validateLatitude "60.17" = Except.ok (6017 / 100) := by
  have hmk : (mkRat 6017 100 : Rat) = 6017 / 100 := by
    rw [Rat.mkRat_eq_div]
    norm_num
  simp only [validateLatitude, jsParseFloat_6017, hmk]
  rw [if_neg (by norm_num)]

theorem c9_amended :
    (validateLatitude "999" = Except.error "Invalid latitude: 999" ∧
      jsIncludes "Invalid latitude: 999" "latitude" = true) ∧
    (validateLatitude "60.17" = Except.ok (6017 / 100)) ∧
    (∀ (s : String) (q : Rat), validateLatitude s = Except.ok q ↔
      (jsParseFloat s = some q ∧ -90 ≤ q ∧ q ≤ 90)) ∧
    (∀ (v m : String), validateLatitude v = Except.error m →
      placesErrorResponse m = ⟨400, some m, none, none, none, none⟩) ∧
    (∀ (s : String) (q : Rat), jsParseFloat s = some q →
      (parseParams { rawEmpty with lat := some s }).lat = some q) := by
  refine ⟨⟨validateLatitude_999, by decide⟩, validateLatitude_6017, ?_, ?_, ?_⟩
  · intro s q
    constructor
    · intro hok
      cases hp : jsParseFloat s with
      | none =>
          simp only [validateLatitude, hp] at hok
          exact Except.noConfusion hok
      | some num =>
          simp only [validateLatitude, hp] at hok
          split_ifs at hok with hrange
          · injection hok with hq
            subst hq
            push_neg at hrange
            exact ⟨rfl, hrange.1, hrange.2⟩
    · rintro ⟨hp, h1, h2⟩
      simp only [validateLatitude, hp]
      rw [if_neg (by push_neg; exact ⟨h1, h2⟩)]
  · intro v m herr
    have hm : m = "Invalid latitude: " ++ v := by
      cases hp : jsParseFloat v with
      | none =>
          simp only [validateLatitude, hp] at herr
          injection herr with h
          exact h.symm
      | some num =>
          simp only [validateLatitude, hp] at herr
          split_ifs at herr with hrange
          · injection herr with h
            exact h.symm
    subst hm
    have hcond : (!("Invalid latitude: " ++ v == "") &&
        jsIncludes ("Invalid latitude: " ++ v) "Invalid") = true := by
      rw [invalid_msg_ne_empty v,
        jsIncludes_of_isPrefixOf "Invalid" "Invalid latitude: " v (by decide)]
      rfl
    rw [placesErrorResponse, if_pos hcond]
  · intro s q hp
    by_cases hs : s = ""
    · subst hs
      rw [show jsParseFloat "" = none from rfl] at hp
      cases hp
    · show jsParseFloat (jsOr (some s) "60.1699") = some q
      have hjs : jsOr (some s) "60.1699" = s := by simp [jsOr, hs]
      rw [hjs, hp]

/-- Witness for C9 (amended): the concrete probes — the places proxy turns the
`lat=999` validation failure into a 400 naming the field, the aggregator
passes `999` through unvalidated, and `60.17` is accepted exactly because it
parses into `[-90, 90]`. -/
theorem c9_witness :
    placesErrorResponse "Invalid latitude: 999" =
      ⟨400, some "Invalid latitude: 999", none, none, none, none⟩ ∧
    (parseParams { rawEmpty with lat := some "999" }).lat = some 999 ∧
    (validateLatitude "60.17" = Except.ok (6017 / 100) ↔
      (jsParseFloat "60.17" = some (6017 / 100) ∧
        -90 ≤ (6017 / 100 : Rat) ∧ (6017 / 100 : Rat) ≤ 90)) :=
  ⟨c9_amended.2.2.2.1 "999" "Invalid latitude: 999" validateLatitude_999,
   c9_amended.2.2.2.2 "999" 999 jsParseFloat_999,
   c9_amended.2.2.1 "60.17" (6017 / 100)⟩

/-- C10: in every 200 response of both event-query handlers the `count` field
is the length of the `data` array of that same response — the post-filter,
post-limit number of served events — while `updatedAt` is passed through from
the cached payload.  The final clause contrasts this with the cached
aggregate's own count: a two-event payload served with `limit = 1` responds
`count = 1` while the payload records `count = 2`. -/
theorem c10_count_is_served_length :
    (∀ (p : Params) (payload : Payload),
      (respond p payload).status = 200 ∧
      (respond p payload).count = some (((respond p payload).data).getD []).length ∧
      (respond p payload).updatedAt = some payload.updatedAt) ∧
    (∀ (q : String) (price category : Option String) (limit : Nat)
        (payload : LitePayload),
      (liteRespond q price category limit payload).1 = 200 ∧
      (liteRespond q price category limit payload).2.2.1 =
        some (liteRespond q price category limit payload).2.2.2.length ∧
      (liteRespond q price category limit payload).2.1 = some payload.updatedAt) ∧
    ((liteRespond "" none none 1
        ⟨5, 2, [⟨"a", "t", "", 0, 0, "other", "free", none⟩,
                ⟨"b", "u", "", 0, 0, "other", "free", none⟩]⟩).2.2.1 = some 1 ∧
      (⟨5, 2, [⟨"a", "t", "", 0, 0, "other", "free", none⟩,
               ⟨"b", "u", "", 0, 0, "other", "free", none⟩]⟩ : LitePayload).count = 2) := by
  refine ⟨fun p payload => ⟨rfl, rfl, rfl⟩,
    fun q price category limit payload => ⟨rfl, rfl, rfl⟩, by decide, rfl⟩

theorem tan_pi_div_six_val : Real.tan (Real.pi / 6) = (1 / 2) / (Real.sqrt 3 / 2) := by
  rw [Real.tan_eq_sin_div_cos, Real.sin_pi_div_six, Real.cos_pi_div_six]

theorem atan2_half_sqrt3 : atan2 (1 / 2) (Real.sqrt 3 / 2) = Real.pi / 6 := by
  have h3 : (0 : Real) < Real.sqrt 3 := Real.sqrt_pos.mpr (by norm_num)
  rw [atan2, if_pos (by linarith)]
  rw [← tan_pi_div_six_val]
  exact Real.arctan_tan (by linarith [Real.pi_pos]) (by linarith [Real.pi_pos])

/-- The Haversine distance between the points (0, 30) and (0, 90): sixty
degrees of longitude along the equator, one third of pi in radians. -/
theorem calculateDistance_equator :
    calculateDistance 0 30 0 90 = 6371 * (Real.pi / 3) := by
  simp only [calculateDistance]
  have ha : Real.sin (((0 : Real) - 0) * Real.pi / 180 / 2) *
      Real.sin (((0 : Real) - 0) * Real.pi / 180 / 2) +
      Real.cos ((0 : Real) * Real.pi / 180) * Real.cos ((0 : Real) * Real.pi / 180) *
        Real.sin (((90 : Real) - 30) * Real.pi / 180 / 2) *
        Real.sin (((90 : Real) - 30) * Real.pi / 180 / 2) = 1 / 4 := by
    have h1 : ((0 : Real) - 0) * Real.pi / 180 / 2 = 0 := by ring
    have h2 : (0 : Real) * Real.pi / 180 = 0 := by ring
    have h3 : ((90 : Real) - 30) * Real.pi / 180 / 2 = Real.pi / 6 := by ring
    rw [h1, h2, h3, Real.sin_zero, Real.cos_zero, Real.sin_pi_div_six]
    norm_num
  rw [ha]
  have hq : (1 : Real) - 1 / 4 = 3 / 4 := by norm_num
  rw [hq]
  have hs1 : Real.sqrt (1 / 4 : Real) = 1 / 2 := by
    rw [show (1 / 4 : Real) = (1 / 2) ^ 2 by norm_num]
    exact Real.sqrt_sq (by norm_num)
  have hs2 : Real.sqrt (3 / 4 : Real) = Real.sqrt 3 / 2 := by
    rw [Real.sqrt_div (by norm_num : (0 : Real) ≤ 3) 4]
    rw [show (4 : Real) = 2 ^ 2 by norm_num, Real.sqrt_sq (by norm_num)]
  rw [hs1, hs2, atan2_half_sqrt3]
  ring

/-- C2 counterexample: a viewer at (0, 30) has known coordinates, yet the
JS truthiness guard `if (userLat && userLng)` skips the distance penalty for
the zero latitude.  For an event on the equator sixty degrees away, the code
returns the bare base 1000 while the claimed formula, which always subtracts
ten points per km of Haversine distance, clamps to 0. -/
theorem c2_counterexample :
    scoreEvent evC2 0 30 0 = 1000 ∧ scoreClaimC2 evC2 0 30 0 = 0 := by
  have hfields : evC2.isLiveNow = false ∧ evC2.startTime = 0 ∧
      evC2.priceType = "paid" ∧ evC2.imageUrl = none ∧ evC2.url = none ∧
      evC2.lat = 0 ∧ evC2.lng = 90 := by
    refine ⟨rfl, rfl, rfl, rfl, rfl, rfl, rfl⟩
  obtain ⟨hlive, hstart, hprice, himg, hurl, hlat, hlng⟩ := hfields
  have hh : ((evC2.startTime - 0 : Int) : Real) / (60 * 60 * 1000) = 0 := by
    rw [hstart]
    norm_num
  constructor
  · simp only [scoreEvent, hlive, hstart, hprice, himg, hurl, hh]
    rw [if_neg (by simp)]
    norm_num [truthyStr]
    rw [if_neg (by decide), add_zero, max_eq_right (by norm_num)]
  · simp only [scoreClaimC2, hlive, hstart, hprice, himg, hurl, hlat, hlng, hh]
    have hcast : calculateDistance 0 30 (((0 : Rat) : Real)) (((90 : Rat) : Real)) =
        6371 * (Real.pi / 3) := by
      rw [show (((0 : Rat) : Real)) = (0 : Real) by norm_num,
        show (((90 : Rat) : Real)) = (90 : Real) by norm_num]
      exact calculateDistance_equator
    rw [hcast]
    norm_num [truthyStr]
    rw [if_neg (by decide)]
    linarith [Real.pi_gt_three]

/-- The sequential else-if imminence chain of the code computes the same tier
bonus as the claim's phrasing of the tiers. -/
theorem imminence_cases (h : Real) :
    (if 0 < h ∧ h ≤ 2 then (200 : Real)
      else if 2 < h ∧ h ≤ 6 then 100
      else if 6 < h ∧ h ≤ 24 then 50
      else 0) =
    (if 0 < h ∧ h ≤ 2 then (200 : Real)
      else if 0 < h ∧ h ≤ 6 then 100
      else if 0 < h ∧ h ≤ 24 then 50
      else 0) := by
  by_cases h1 : 0 < h ∧ h ≤ 2
  · simp [h1]
  · by_cases h2 : 2 < h ∧ h ≤ 6
    · have h2b : 0 < h ∧ h ≤ 6 := ⟨by linarith [h2.1], h2.2⟩
      simp [h1, h2, h2b]
    · by_cases h3 : 6 < h ∧ h ≤ 24
      · have hn2 : ¬ (0 < h ∧ h ≤ 6) := fun hc => absurd hc.2 (by push_neg; linarith [h3.1])
        have h3b : 0 < h ∧ h ≤ 24 := ⟨by linarith [h3.1], h3.2⟩
        have hgt2 : ¬ h ≤ 2 := by push_neg; linarith [h3.1]
        have hgt6 : ¬ h ≤ 6 := by push_neg; linarith [h3.1]
        simp [h1, h2, h3, hn2, h3b, hgt2, hgt6]
      · have hn2 : ¬ (0 < h ∧ h ≤ 6) := by
          intro hc
          rcases le_or_lt h 2 with hle | hlt
          · exact h1 ⟨hc.1, hle⟩
          · exact h2 ⟨hlt, hc.2⟩
        have hn3 : ¬ (0 < h ∧ h ≤ 24) := by
          intro hc
          rcases le_or_lt h 6 with hle | hlt
          · exact hn2 ⟨hc.1, hle⟩
          · exact h3 ⟨hlt, hc.2⟩
        simp [h1, h2, h3, hn2, hn3]

/-- C2 (amended): whenever both viewer coordinates are nonzero — the JS
truthiness reading of `if (userLat && userLng)` — the computed score equals
the claimed formula exactly: base 1000, minus ten points per km of Haversine
distance, plus 500 when live, the 200/100/50 imminence tiers, 50 for a free
event, 25 for an image and 10 for a url, clamped to non-negative.  A viewer
at latitude or longitude exactly 0 skips the distance penalty instead. -/
theorem c2_amended (e : Event) (userLat userLng : Real) (now : Int)
    (hla : userLat ≠ 0) (hln : userLng ≠ 0) :
    scoreEvent e userLat userLng now = scoreClaimC2 e userLat userLng now := by
  simp only [scoreEvent, scoreClaimC2]
  rw [if_pos (And.intro hla hln)]
  rw [imminence_cases]
  congr 1
  ring

/-- Witness for C2 (amended) at the Helsinki city-centre viewer position. -/
theorem c2_witness :
    ((60 : Real) ≠ 0) ∧ ((24 : Real) ≠ 0) ∧
      scoreEvent evA 60 24 0 = scoreClaimC2 evA 60 24 0 :=
  ⟨by norm_num, by norm_num, c2_amended evA 60 24 0 (by norm_num) (by norm_num)⟩

/-- C6: holding every factor of the event other than its position fixed, the
score is monotonically non-increasing in the Haversine distance from the
viewer: the nearer of two otherwise identical events never scores lower.
(When a viewer coordinate is zero the distance penalty is skipped and the two
scores are equal, which still satisfies non-increase.) -/
theorem c6_score_antitone (e : Event) (userLat userLng : Real) (now : Int)
    (lat1 lng1 lat2 lng2 : Rat)
    (hvla : -90 ≤ userLat ∧ userLat ≤ 90) (hvln : -180 ≤ userLng ∧ userLng ≤ 180)
    (hdist : calculateDistance userLat userLng (lat1 : Real) (lng1 : Real) ≤
      calculateDistance userLat userLng (lat2 : Real) (lng2 : Real)) :
    scoreEvent { e with lat := lat2, lng := lng2 } userLat userLng now ≤
      scoreEvent { e with lat := lat1, lng := lng1 } userLat userLng now := by
  simp only [scoreEvent]
  by_cases hu : userLat ≠ 0 ∧ userLng ≠ 0
  · rw [if_pos hu, if_pos hu]
    apply max_le_max le_rfl
    have hbase : calculateDistance userLat userLng (lat2 : Real) (lng2 : Real) * 10 ≥
        calculateDistance userLat userLng (lat1 : Real) (lng1 : Real) * 10 := by
      nlinarith [hdist]
    nlinarith [hbase]
  · rw [if_neg hu, if_neg hu]

/-- Witness for C6 at equal positions: the distance hypothesis holds by
reflexivity and the score comparison follows from the theorem. -/
theorem c6_witness :
    ((-90 : Real) ≤ 60 ∧ (60 : Real) ≤ 90) ∧
    ((-180 : Real) ≤ 24 ∧ (24 : Real) ≤ 180) ∧
    scoreEvent { evA with lat := 60, lng := 24 } 60 24 0 ≤
      scoreEvent { evA with lat := 60, lng := 24 } 60 24 0 :=
  ⟨⟨by norm_num, by norm_num⟩, ⟨by norm_num, by norm_num⟩,
    c6_score_antitone evA 60 24 0 60 24 60 24 ⟨by norm_num, by norm_num⟩
      ⟨by norm_num, by norm_num⟩ (le_refl _)⟩

end Hotspot
